import Mathlib

/-!
Verification development for the cf-edgescout repository.

The Go sources are shallowly embedded: pure functions become Lean functions,
stateful code becomes explicit state passing, float64 arithmetic is modelled
over the rationals, machine integers over Int/Nat, time.Duration values as
rational nanosecond counts, and Go maps as association lists (Go map
iteration order is unspecified; wherever the source sorts or keys are
pairwise distinct the association-list model is order-faithful).
Network effects (HTTP requests, TCP/TLS dials, the PRNG stream, clock reads
and context cancellation) are passed in as explicit oracle arguments, so each
embedded function is a deterministic function of its inputs and its oracles.
-/

namespace EdgeScout

/-- Model of Go strings.ToLower as used in this repository (the inputs the
repository compares are ASCII host names and tags). -/
def goToLower (s : String) : String := String.mk (s.data.map Char.toLower)

/-- Model of Go strings.TrimSpace: leading and trailing whitespace removed. -/
def goTrimSpace (s : String) : String :=
  String.mk (((s.data.dropWhile Char.isWhitespace).reverse.dropWhile Char.isWhitespace).reverse)

/-- Model of Go strings.EqualFold (case-insensitive equality; ASCII scope). -/
def goEqualFold (a b : String) : Bool := goToLower a == goToLower b

/-- Model of Go strings.ToUpper (ASCII scope). -/
def goToUpper (s : String) : String := String.mk (s.data.map Char.toUpper)

/-! ## Prober data model (src/prober/prober.go) -/

/-- IntegrityReport, from src/prober/prober.go. -/
structure IntegrityReport where
  tlsServerName : String := ""
  certificateCN : String := ""
  certificateSANs : List String := []
  matchesSNI : Bool := false
  httpStatus : Int := 0
  responseHash : String := ""
deriving DecidableEq, Repr

/-- LocationInfo, from src/prober/prober.go. -/
structure LocationInfo where
  colo : String := ""
  city : String := ""
  country : String := ""
deriving DecidableEq, Repr

/-- HTTPFingerprint, from src/prober/prober.go.  The headers map is modelled
as an association list in insertion order. -/
structure HTTPFingerprint where
  statusCode : Int := 0
  headers : List (String × String) := []
  contentLength : Int := 0
deriving DecidableEq, Repr

/-- ValidationResult, from src/prober/prober.go. -/
structure ValidationResult where
  sni : String := ""
  certificateCN : String := ""
  certificateMatch : Bool := false
  expectedCNs : List String := []
  originHost : String := ""
  expectedOrigin : String := ""
  originMatch : Bool := false
  failures : List String := []
deriving DecidableEq, Repr

/-- Measurement, from src/prober/prober.go.  IPs are modelled as numeric
values, durations as rational nanosecond counts, timestamps as Nat ticks. -/
structure Measurement where
  ip : Nat := 0
  domain : String := ""
  requestHost : String := ""
  tcpDuration : ℚ := 0
  tlsDuration : ℚ := 0
  httpDuration : ℚ := 0
  success : Bool := false
  error : String := ""
  alpn : String := ""
  tlsVersion : String := ""
  sni : String := ""
  throughput : ℚ := 0
  cfRay : String := ""
  cfColo : String := ""
  dataSource : String := ""
  source : String := ""
  sourceType : String := ""
  sourceWeight : ℚ := 0
  provider : String := ""
  network : String := ""
  family : String := ""
  certificateCN : String := ""
  certificateDNSNames : List String := []
  originHost : String := ""
  httpFingerprint : HTTPFingerprint := {}
  validation : ValidationResult := {}
  integrity : IntegrityReport := {}
  bytesRead : Int := 0
  location : LocationInfo := {}
  timestamp : Nat := 0
deriving DecidableEq, Repr

/-! ## Measurement.ApplyValidation (src/prober/prober.go lines 91-140) -/

/-- The lower/trim normalisation loop applied to the trusted CN list:
each entry is lower-cased then trimmed, and empty results are dropped. -/
def lowerTrustedCNs (trustedCNs : List String) : List String :=
  (trustedCNs.map fun cn => goTrimSpace (goToLower cn)).filter (fun cn => cn ≠ "")

/-- One iteration of the match loop: the candidate CN (already lower-cased
via the caller) or any certificate DNS name equals the normalised trusted
CN. -/
def cnEntryMatches (m : Measurement) (cn : String) : Bool :=
  goToLower m.certificateCN == cn
    || m.certificateDNSNames.any (fun alt => goToLower alt == cn)

/-- The match loop of ApplyValidation over the normalised trusted CNs
(the Go loop breaks at the first match; any is equivalent). -/
def certMatchLoop (m : Measurement) (lower : List String) : Bool :=
  lower.any (cnEntryMatches m)

/-- Measurement.ApplyValidation, translated from src/prober/prober.go.
The Go method mutates m.Validation; the model returns the updated
measurement.  Note the source sets CertificateMatch unconditionally to true
when the trusted CN list is empty, appends failure tags to the existing
failure list, and on an origin mismatch leaves OriginMatch at its previous
value. -/
def applyValidation (m : Measurement) (expectedOrigin : String)
    (trustedCNs : List String) : Measurement :=
  let v0 : ValidationResult :=
    { m.validation with
      sni := m.domain
      certificateCN := m.certificateCN
      expectedCNs := trustedCNs
      expectedOrigin := expectedOrigin }
  let v1 : ValidationResult :=
    if trustedCNs = [] then
      { v0 with certificateMatch := true }
    else
      let lower := lowerTrustedCNs trustedCNs
      let matched := certMatchLoop m lower
      if matched then
        { v0 with certificateMatch := true }
      else
        { v0 with certificateMatch := false
                  failures := v0.failures ++ ["certificate_cn_mismatch"] }
  let v2 : ValidationResult := { v1 with originHost := m.originHost }
  let v3 : ValidationResult :=
    if expectedOrigin = "" then
      { v2 with originMatch := true }
    else if goEqualFold expectedOrigin m.originHost then
      { v2 with originMatch := true }
    else
      { v2 with failures := v2.failures ++ ["origin_host_mismatch"] }
  { m with validation := v3 }

/-! ## Prober.Probe (src/prober/prober.go lines 212-316)

The three network stages are passed in as oracles: each stage either fails
with a Go error string or yields the observations the code extracts from
the connection.  SHA-256 hashing of the body is out of scope; the hash the
code would compute is part of the HTTP oracle observation. -/

/-- Observations taken from the TLS connection state after a successful
tls.DialWithDialer. -/
structure TLSState where
  handshakeComplete : Bool := true
  alpn : String := ""
  tlsVersion : String := ""
  serverName : String := ""
  hasPeerCert : Bool := false
  certCN : String := ""
  certDNSNames : List String := []
  verifyHostnameOk : Bool := false
deriving DecidableEq, Repr

/-- Observations taken from a successful HTTP round trip, including the
outcome of streaming the (1 MiB capped) body. -/
structure HTTPResp where
  status : Int := 0
  contentLength : Int := 0
  headers : List (String × String) := []
  bytesRead : Int := 0
  readErr : Option String := none
  bodyHash : String := ""
deriving DecidableEq, Repr

/-- The oracle environment of one probe: stage outcomes and the measured
stage durations (rational nanoseconds). -/
structure ProbeEnv where
  tcpResult : Except String Unit := .ok ()
  tcpDuration : ℚ := 0
  tlsResult : Except String TLSState := .ok {}
  tlsDuration : ℚ := 0
  httpResult : Except String HTTPResp := .ok {}
  httpDuration : ℚ := 0
  now : Nat := 0
deriving Repr

/-- resp.Header.Get: first value stored for the key (the model keeps one
value per key, as the code copies values [0] into the fingerprint). -/
def headerGet (headers : List (String × String)) (key : String) : String :=
  match headers.find? (fun kv => kv.1 == key) with
  | some kv => kv.2
  | none => ""

/-- The origin-host extraction loop: first non-empty value among the
origin-identifying headers. -/
def originHostOf (headers : List (String × String)) : String :=
  let originHeaders := ["CF-Worker-Upstream", "CF-Worker-Subrequest", "CF-Cache-Status"]
  match originHeaders.find? (fun h => goTrimSpace (headerGet headers h) ≠ "") with
  | some h => goTrimSpace (headerGet headers h)
  | none => ""

/-- CF-Ray colo extraction: strings.Split(ray, "-") must have exactly two
parts; the second is upper-cased. -/
def cfColoOf (ray : String) : String :=
  match ray.splitOn "-" with
  | [_, colo] => goToUpper colo
  | _ => ""

/-- Prober.Probe, translated from src/prober/prober.go.  The nil-ip /
empty-domain argument errors and the geo lookup (external collaborator) are
out of scope; the function returns the measurement the code builds on every
path that reaches a stage outcome. -/
def probe (env : ProbeEnv) (ip : Nat) (domain : String) : Measurement :=
  let m0 : Measurement :=
    { ip := ip, domain := domain, timestamp := env.now
      integrity := { tlsServerName := domain } }
  match env.tcpResult with
  | .error e => { m0 with error := "tcp dial: " ++ e }
  | .ok _ =>
    let m1 := { m0 with tcpDuration := env.tcpDuration }
    match env.tlsResult with
    | .error e => { m1 with error := "tls dial: " ++ e }
    | .ok st =>
      let m2 :=
        if st.handshakeComplete then
          let m2a := { m1 with alpn := st.alpn, tlsVersion := st.tlsVersion, sni := st.serverName }
          if st.hasPeerCert then
            { m2a with certificateCN := st.certCN
                       certificateDNSNames := st.certDNSNames
                       integrity := { m2a.integrity with
                         certificateCN := st.certCN
                         certificateSANs := st.certDNSNames
                         matchesSNI := st.verifyHostnameOk } }
          else m2a
        else m1
      let m3 := { m2 with tlsDuration := env.tlsDuration, requestHost := domain }
      match env.httpResult with
      | .error e => { m3 with error := "http: " ++ e }
      | .ok resp =>
        let m4 :=
          { m3 with
            error := match resp.readErr with
              | some e => "read body: " ++ e
              | none => m3.error
            bytesRead := resp.bytesRead
            httpDuration := env.httpDuration
            integrity := { m3.integrity with
              httpStatus := resp.status
              responseHash := resp.bodyHash }
            httpFingerprint :=
              { statusCode := resp.status
                contentLength := resp.contentLength
                headers := resp.headers } }
        let durationSeconds : ℚ := m4.httpDuration / 1000000000
        let m5 :=
          if 0 < durationSeconds then
            { m4 with throughput := (resp.bytesRead * 8 : ℚ) / durationSeconds }
          else m4
        let m6 := { m5 with originHost := originHostOf resp.headers }
        let ray := headerGet resp.headers "CF-Ray"
        let m7 := { m6 with cfRay := ray, cfColo := cfColoOf ray
                            location := { colo := cfColoOf ray } }
        { m7 with success :=
            decide (200 ≤ resp.status) && decide (resp.status < 400)
              && (m7.error == "") }

/-! ## Scorer (src/scorer/scorer.go, second variant: lines 129-310 of the
concatenated file — the grading/status variant the spec selects) -/

/-- Scorer Config.  Maps are association lists; float64 weights are
rationals. -/
structure ScorerConfig where
  latencyWeight : ℚ := 0
  successWeight : ℚ := 0
  throughputWeight : ℚ := 0
  integrityWeight : ℚ := 0
  sourcePreference : List (String × ℚ) := []
  gradeBoundaries : List (String × ℚ) := []
deriving Repr

/-- Scorer Result. -/
structure ScoreResult where
  score : ℚ
  grade : String
  status : String
  failures : List String
  components : List (String × ℚ)
  measurement : Measurement
deriving Repr

/-- Association-list lookup, modelling a Go map read (value, ok). -/
def mapLookup (m : List (String × ℚ)) (key : String) : Option ℚ :=
  (m.find? (fun kv => kv.1 == key)).map (fun kv => kv.2)

/-- The two sequential clamp statements ending Scorer.Score:
if score > 1 then 1; then if score < 0 then 0. -/
def clamp01 (x : ℚ) : ℚ :=
  if 1 < x then 1 else if x < 0 then 0 else x

/-- normaliseLatency, from src/scorer/scorer.go (durations in rational
nanoseconds; 500ms = 500000000ns). -/
def normaliseLatency (d : ℚ) : ℚ :=
  if d ≤ 0 then 1
  else
    let value := 1 - d / 500000000
    if value < 0 then 0 else if 1 < value then 1 else value

/-- normaliseThroughput, from src/scorer/scorer.go.  math.Sqrt is modelled
as an uninterpreted oracle argument; no claim depends on its values. -/
def normaliseThroughput (sqrtFn : ℚ → ℚ) (bitsPerSecond : ℚ) : ℚ :=
  if bitsPerSecond ≤ 0 then 0
  else
    let ideal : ℚ := 50 * 1024 * 1024 * 8
    let ratio := bitsPerSecond / ideal
    let ratio := if 1 < ratio then 1 else ratio
    let ratio := if ratio < 0 then 0 else ratio
    sqrtFn ratio

/-- normaliseIntegrity, from src/scorer/scorer.go (second variant). -/
def normaliseIntegrity (v : ValidationResult) (status : Int) : ℚ :=
  if v.failures = [] ∧ 200 ≤ status ∧ status < 400 then
    if v.certificateMatch ∧ v.originMatch then 1 else 3/4
  else
    let penalty : ℚ := (v.failures.length : ℚ) * (1/4)
    let sc := 1 - penalty
    let sc := if sc < 0 then 0 else sc
    if 500 ≤ status then sc * (1/2) else sc

/-- Scorer.sourceBoost (second variant): candidates are the source then the
provider; each non-empty lower-cased key found in the preference map
overwrites the boost. -/
def sourceBoost (cfg : ScorerConfig) (m : Measurement) : ℚ :=
  let step := fun (boost : ℚ) (key : String) =>
    let key := goToLower key
    if key = "" then boost
    else
      match mapLookup cfg.sourcePreference key with
      | some weight => weight
      | none => boost
  step (step 1 m.source) m.provider

/-- determineGrade, from src/scorer/scorer.go: boundaries sorted by
descending cut, first boundary with score ≥ cut wins, otherwise F.  Go
iterates the map before sorting; since the sort is total on the cuts up to
ties, the model sorts the association list directly. -/
def determineGrade (scoreVal : ℚ) (boundaries : List (String × ℚ)) : String :=
  let ordered := boundaries.insertionSort (fun a b => b.2 ≤ a.2)
  match ordered.find? (fun entry => entry.2 ≤ scoreVal) with
  | some entry => entry.1
  | none => "F"

/-- The success normalisation inline in Score: 1 on success, 0.5 on a
non-success measurement with an empty error, 0 otherwise. -/
def successNormOf (m : Measurement) : ℚ :=
  if m.success then 1 else if m.error = "" then 1/2 else 0

/-- The numeric part of Scorer.Score: weighted composite over the
normalised components (denominator replaced by 1 when the weights sum to
zero), multiplied by the source preference boost and, when positive, the
source weight, then clamped to the unit interval. -/
def compositeScore (sqrtFn : ℚ → ℚ) (cfg : ScorerConfig) (m : Measurement) : ℚ :=
  let latencyNorm := normaliseLatency (m.tcpDuration + m.tlsDuration + m.httpDuration)
  let successNorm := successNormOf m
  let throughputNorm := normaliseThroughput sqrtFn m.throughput
  let integrityNorm := normaliseIntegrity m.validation m.integrity.httpStatus
  let totalWeight :=
    cfg.latencyWeight + cfg.successWeight + cfg.throughputWeight + cfg.integrityWeight
  let totalWeight := if totalWeight = 0 then 1 else totalWeight
  let rawScore :=
    (latencyNorm * cfg.latencyWeight + successNorm * cfg.successWeight
      + throughputNorm * cfg.throughputWeight + integrityNorm * cfg.integrityWeight)
      / totalWeight
  let boosted := rawScore * sourceBoost cfg m
  let weighted := if 0 < m.sourceWeight then boosted * m.sourceWeight else boosted
  clamp01 weighted

/-- Scorer.Score, translated from src/scorer/scorer.go (second variant). -/
def score (sqrtFn : ℚ → ℚ) (cfg : ScorerConfig) (m : Measurement) : ScoreResult :=
  let latencyNorm := normaliseLatency (m.tcpDuration + m.tlsDuration + m.httpDuration)
  let successNorm := successNormOf m
  let throughputNorm := normaliseThroughput sqrtFn m.throughput
  let integrityNorm := normaliseIntegrity m.validation m.integrity.httpStatus
  let boost := sourceBoost cfg m
  let finalScore := compositeScore sqrtFn cfg m
  let components :=
    [("latency", latencyNorm), ("success", successNorm),
     ("throughput", throughputNorm), ("integrity", integrityNorm),
     ("sourcePreference", boost)]
      ++ (if 0 < m.sourceWeight then [("sourceWeight", m.sourceWeight)] else [])
  let grade := determineGrade finalScore cfg.gradeBoundaries
  let failures0 := m.validation.failures
  let isPass := decide (3/5 ≤ finalScore) && failures0.isEmpty
  let status := if isPass then "pass" else "fail"
  let failures :=
    if isPass then failures0
    else if failures0 = [] ∧ integrityNorm < 3/4 then
      failures0 ++ ["integrity_degraded"]
    else failures0
  { score := finalScore, grade := grade, status := status,
    failures := failures, components := components, measurement := m }

/-- scorer.New: the default configuration (0.35/0.25/0.2/0.2 weights, the
official-source preference boost 1.05 and the default grade boundaries). -/
def scorerNew : ScorerConfig :=
  { latencyWeight := 7/20, successWeight := 1/4,
    throughputWeight := 1/5, integrityWeight := 1/5,
    sourcePreference := [("official", 21/20)],
    gradeBoundaries := [("A", 17/20), ("B", 7/10), ("C", 1/2), ("D", 0)] }

/-! ## Fetcher data model (src/fetcher/providers.go, src/fetcher/source.go,
src/fetcher/aggregator.go, src/fetcher/fetcher.go)

Aggregator.Add / Aggregator.Result and deduplicateRanges access a
*net.IPNet only through Network.String(), cloneIPNet and IP.To4(); a
network is therefore modelled by its CIDR string plus its IPv4-family
flag. -/

/-- A *net.IPNet as the fetcher observes it: its canonical CIDR string and
whether IP.To4() is non-nil. -/
structure CIDRNet where
  cidr : String
  isV4 : Bool := true
deriving DecidableEq, Repr

/-- EndpointSpec, from src/fetcher/providers.go. -/
structure EndpointSpec where
  url : String := ""
  format : String := ""
  jsonPath : List String := []
deriving DecidableEq, Repr

/-- ProviderSpec, from src/fetcher/providers.go. -/
structure ProviderSpec where
  name : String := ""
  displayName : String := ""
  kind : String := ""
  description : String := ""
  weight : ℚ := 0
  ipv4 : EndpointSpec := {}
  ipv6 : EndpointSpec := {}
  enabled : Bool := false
deriving DecidableEq, Repr

/-- RangeSet (provider-spec variant), from src/fetcher/fetcher.go; the
per-source subsets are irrelevant to the fetch claims and stay abstract as
a list of source names. -/
structure RangeSet where
  ipv4 : List CIDRNet := []
  ipv6 : List CIDRNet := []
  sources : List String := []
deriving DecidableEq, Repr

/-- SourceRange, from src/fetcher/providers.go. -/
structure SourceRange where
  provider : ProviderSpec
  rangeSet : RangeSet
deriving DecidableEq, Repr

/-- Go map insertion m[key] = value over a keyed list: an existing key is
overwritten in place, a new key is appended (the model fixes the map
iteration order as insertion order; every consumer below either sorts or
is order-insensitive). -/
def dedupeKeys (l : List CIDRNet) : List CIDRNet :=
  l.foldl
    (fun acc n =>
      if acc.any (fun m => m.cidr == n.cidr) then
        acc.map (fun m => if m.cidr == n.cidr then n else m)
      else acc ++ [n])
    []

/-- deduplicateRanges, from src/fetcher/providers.go: IPv4 entries and
IPv4-mapped IPv6 entries share the seen4 map, the rest go to seen6. -/
def deduplicateRanges (rs : RangeSet) : RangeSet :=
  { ipv4 := dedupeKeys (rs.ipv4 ++ rs.ipv6.filter (fun n => n.isV4))
    ipv6 := dedupeKeys (rs.ipv6.filter (fun n => !n.isV4))
    sources := [] }

/-- Fetcher.FetchProvider, from src/fetcher/aggregator.go (concatenated
file lines 433-444).  fetchEndpoint (HTTP GET + format dispatch + parse) is
the oracle ef; its error strings feed the provider-level messages. -/
def fetchProvider (ef : EndpointSpec → Except String (List CIDRNet))
    (p : ProviderSpec) : Except String SourceRange :=
  match ef p.ipv4 with
  | .error e => .error (p.name ++ " ipv4: " ++ e)
  | .ok v4 =>
    match ef p.ipv6 with
    | .error e => .error (p.name ++ " ipv6: " ++ e)
    | .ok v6 => .ok { provider := p, rangeSet := { ipv4 := v4, ipv6 := v6 } }

/-- The per-provider loop body of Fetcher.FetchAll: successes are appended
to the results (with their range set deduplicated), failures append their
error string. -/
def fetchAllLoop (ef : EndpointSpec → Except String (List CIDRNet))
    (providers : List ProviderSpec) : List SourceRange × List String :=
  providers.foldl
    (fun acc p =>
      match fetchProvider ef p with
      | .error e => (acc.1, acc.2 ++ [e])
      | .ok s => (acc.1 ++ [{ s with rangeSet := deduplicateRanges s.rangeSet }], acc.2))
    ([], [])

/-- Fetcher.FetchAll, from src/fetcher/aggregator.go (concatenated file
lines 447-470).  The Go pair (results, err) is modelled as Except: a hard
failure is .error, a partial failure is .ok with a some message. -/
def fetchAll (ef : EndpointSpec → Except String (List CIDRNet))
    (providers : List ProviderSpec) :
    Except String (List SourceRange × Option String) :=
  if providers = [] then .error "没有提供方可供抓取"
  else
    let acc := fetchAllLoop ef providers
    if acc.1 = [] then
      .error ("全部数据源抓取失败: " ++ String.intercalate "; " acc.2)
    else if acc.2 ≠ [] then
      .ok (acc.1, some ("部分数据源抓取失败: " ++ String.intercalate "; " acc.2))
    else .ok (acc.1, none)

/-! ## Provider.Fetch with endpoint fallback (src/fetcher/source.go
lines 192-244) -/

/-- SourceConfig, from src/fetcher/source.go (parser and signer live inside
the endpoint oracle; the rate limiter only waits, it cannot fail while the
context is live, so it does not appear in the data flow). -/
structure SourceConfig where
  name : String := ""
  endpoints : List String := []
  rateLimit : ℚ := 0
  credibility : ℚ := 0
deriving DecidableEq, Repr

/-- RangeMetadata, from src/fetcher/source.go. -/
structure RangeMetadata where
  source : String := ""
  endpoint : String := ""
  retrievedAt : Nat := 0
  credibility : ℚ := 0
deriving DecidableEq, Repr

/-- RangeRecord, from src/fetcher/source.go. -/
structure RangeRecord where
  network : CIDRNet
  metadata : RangeMetadata
deriving DecidableEq, Repr

/-- Model of errors.Join on a list of error strings (Go joins the messages
with newlines). -/
def goErrorsJoin (errs : List String) : String :=
  String.intercalate "\n" errs

/-- The record-building inner loop of Provider.Fetch: one RangeRecord per
parsed network, carrying the provider provenance for the endpoint. -/
def recordsFor (tsOf : String → Nat) (cfg : SourceConfig) (endpoint : String)
    (networks : List CIDRNet) : List RangeRecord :=
  networks.map (fun n =>
    { network := n
      metadata :=
        { source := cfg.name, endpoint := endpoint,
          retrievedAt := tsOf endpoint, credibility := cfg.credibility } })

/-- Provider.Fetch, from src/fetcher/source.go lines 192-244: every
endpoint is visited in order (request build, HTTP GET, status check and
parse folded into the oracle ep), records from each successful endpoint
are appended to the aggregate, and an error is returned only when no
endpoint contributed records.  tsOf gives the time.Now().UTC() tick
observed after an endpoint parses. -/
def providerFetch (ep : String → Except String (List CIDRNet))
    (tsOf : String → Nat) (cfg : SourceConfig) :
    Except String (List RangeRecord) :=
  let acc := cfg.endpoints.foldl
    (fun (acc : List RangeRecord × List String) endpoint =>
      match ep endpoint with
      | .error e => (acc.1, acc.2 ++ [e])
      | .ok networks => (acc.1 ++ recordsFor tsOf cfg endpoint networks, acc.2))
    ([], [])
  if acc.1 ≠ [] then .ok acc.1
  else if acc.2 = [] then .error ("all endpoints failed for " ++ cfg.name)
  else .error (goErrorsJoin acc.2)

/-- A two-endpoint oracle where both endpoints yield records (used to
refute the stop-at-first-success reading of endpoint fallback). -/
def epOracleC5 : String → Except String (List CIDRNet) := fun e =>
  if e = "https://a.example/v4" then .ok [{ cidr := "1.1.1.0/24" }]
  else .ok [{ cidr := "2.2.2.0/24" }]

/-- A provider configured with two endpoint URLs. -/
def cfgC5 : SourceConfig :=
  { name := "demo", endpoints := ["https://a.example/v4", "https://b.example/v4"],
    credibility := 1 }

/-! ## Aggregator (src/fetcher/aggregator.go lines 66-113) -/

/-- RangeEntry, from src/fetcher/aggregator.go. -/
structure RangeEntry where
  network : CIDRNet
  metadata : List RangeMetadata
deriving DecidableEq, Repr

/-- One step of Aggregator.Add: lookup by the CIDR string, create the entry
from the first record carrying the key, append the metadata.  The entries
map is modelled as a list keyed by the CIDR string in insertion order
(Result sorts, so map iteration order never reaches the output). -/
def aggAddOne (st : List RangeEntry) (r : RangeRecord) : List RangeEntry :=
  if st.any (fun e => e.network.cidr == r.network.cidr) then
    st.map (fun e =>
      if e.network.cidr == r.network.cidr then
        { e with metadata := e.metadata ++ [r.metadata] }
      else e)
  else st ++ [{ network := r.network, metadata := [r.metadata] }]

/-- Aggregator.Add, from src/fetcher/aggregator.go lines 77-92 (records
with a nil network do not exist in the model). -/
def aggAdd (st : List RangeEntry) (records : List RangeRecord) : List RangeEntry :=
  records.foldl aggAddOne st

/-- Go string comparison over the rune sequence (byte-wise lexicographic;
identical to rune-wise on the ASCII data this repository compares). -/
def charListLt : List Char → List Char → Bool
  | _, [] => false
  | [], _ :: _ => true
  | a :: as, b :: bs =>
    if a.toNat < b.toNat then true
    else if b.toNat < a.toNat then false
    else charListLt as bs

/-- Go string operator < as used by the sort.Slice comparators. -/
def goStringLt (a b : String) : Bool := charListLt a.data b.data

/-- The sort.Slice comparator of Result over metadata, as a total preorder
(the sorted-by relation of the strict Go less function): by source, then by
endpoint. -/
def metaLe (a b : RangeMetadata) : Prop :=
  goStringLt a.source b.source = true
    ∨ (a.source = b.source
        ∧ (goStringLt a.endpoint b.endpoint = true ∨ a.endpoint = b.endpoint))

instance : DecidableRel metaLe := fun a b => by
  unfold metaLe; infer_instance

/-- The sort.Slice comparator of Result over entries, as a total preorder:
by the CIDR string of the network. -/
def entryLe (a b : RangeEntry) : Prop :=
  goStringLt a.network.cidr b.network.cidr = true
    ∨ a.network.cidr = b.network.cidr

instance : DecidableRel entryLe := fun a b => by
  unfold entryLe; infer_instance

/-- Aggregator.Result, from src/fetcher/aggregator.go lines 95-113: copy
each entry with its metadata sorted by (source, endpoint), then sort the
entries by CIDR string.  Go sort.Slice is unstable and the map iteration
order is unspecified; the model uses a stable insertion sort, which
produces one of the permitted outcomes and the unique one whenever the
compared keys are pairwise distinct. -/
def aggResult (st : List RangeEntry) : List RangeEntry :=
  List.insertionSort entryLe
    (st.map fun e => { e with metadata := List.insertionSort metaLe e.metadata })

/-- Aggregate both providers' record lists into a fresh aggregator and read
the result (the composition the C4 claim quantifies over). -/
def aggregate (a b : List RangeRecord) : List RangeEntry :=
  aggResult (aggAdd (aggAdd [] a) b)

/-! ## Sampler (src/sampler/sampler.go lines 212-294)

An IP address is a natural number inside its family (ip < 2^bits); a
network holds the base address and the mask sizes as returned by
Mask.Size().  The PRNG is an oracle stream of draws: randomIP consumes one
draw, big.Int.Rand yielding a uniform value below 2^span is modelled as
draw % 2^span.  The history map keyed by ip.String() is modelled as the
list of previously picked numeric IPs (String() is injective within the
runs the sampler performs). -/

/-- A *net.IPNet as the sampler uses it: base address value and the
(ones, bits) result of Mask.Size(); ones = bits = 0 encodes the
non-canonical mask Go reports as (0, 0). -/
structure IPNet where
  base : Nat
  ones : Nat
  bits : Nat
deriving DecidableEq, Repr

/-- net.IPNet.Contains: both the address and the network base are masked
with the network mask and compared. -/
def ipnetContains (n : IPNet) (ip : Nat) : Bool :=
  ip / 2 ^ (n.bits - n.ones) == n.base / 2 ^ (n.bits - n.ones)

/-- randomIP, from src/sampler/sampler.go lines 255-285.  The draw argument
is the PRNG output; span ≤ 0 returns a copy of the base address. -/
def randomIP (n : IPNet) (draw : Nat) : Option Nat :=
  if n.ones = 0 ∧ n.bits = 0 then none
  else if n.bits ≤ n.ones then some n.base
  else some (n.base + draw % 2 ^ (n.bits - n.ones))

/-- Sampler.pickUniqueIP, from src/sampler/sampler.go lines 212-228.  The
loop runs for at most maxTries iterations, one PRNG draw per iteration;
the draws list carries those at most maxTries = 8 prospective draws.
Returns the picked IP (if any) and the updated history. -/
def pickUniqueIP (n : IPNet) (history : List Nat) :
    List Nat → Option Nat × List Nat
  | [] => (none, history)
  | draw :: rest =>
    match randomIP n draw with
    | none => (none, history)
    | some ip =>
      if ip ∈ history then pickUniqueIP n history rest
      else (some ip, ip :: history)

/-! ## Scheduler.tryProbe (src/unnamed/part_007 lines 88-107, the variant
with candidate-level domains; src/unnamed/part_006 lines 162-181 differs
only in the unreachable post-loop return)

The prober is the oracle probeAt, giving the outcome of attempt i; context
cancellation observed by sleepWithContext during the 100 ms pause after
attempt i is the oracle cancelAt i (some e means ctx.Err() = e fired
during that pause). -/

/-- The attempt loop of tryProbe, with the remaining loop iterations as
fuel (the loop bound attempts = Retries+1 is supplied by tryProbe). -/
def tryProbeAux (probeAt : Nat → Except String Measurement)
    (cancelAt : Nat → Option String) (attempts : Nat) :
    Nat → Nat → Except String Measurement
  | _, 0 => .error "probe attempts exhausted"
  | attempt, fuel + 1 =>
    match probeAt attempt with
    | .error e => .error e
    | .ok m =>
      if m.success = true ∨ attempt = attempts - 1 then .ok m
      else
        match cancelAt attempt with
        | some e => .error e
        | none => tryProbeAux probeAt cancelAt attempts (attempt + 1) fuel

/-- Scheduler.tryProbe: up to retries+1 attempts, retrying only after an
unsuccessful measurement, pausing 100 ms between attempts with the pause
honouring context cancellation. -/
def tryProbe (probeAt : Nat → Except String Measurement)
    (cancelAt : Nat → Option String) (retries : Nat) :
    Except String Measurement :=
  tryProbeAux probeAt cancelAt (retries + 1) 0 (retries + 1)

/-- The number of prober invocations tryProbe performs (the loop body calls
Probe exactly once per iteration entered). -/
def tryProbeCallsAux (probeAt : Nat → Except String Measurement)
    (cancelAt : Nat → Option String) (attempts : Nat) :
    Nat → Nat → Nat
  | _, 0 => 0
  | attempt, fuel + 1 =>
    match probeAt attempt with
    | .error _ => 1
    | .ok m =>
      if m.success = true ∨ attempt = attempts - 1 then 1
      else
        match cancelAt attempt with
        | some _ => 1
        | none => 1 + tryProbeCallsAux probeAt cancelAt attempts (attempt + 1) fuel

/-- The number of prober invocations of a full tryProbe run. -/
def tryProbeCalls (probeAt : Nat → Except String Measurement)
    (cancelAt : Nat → Option String) (retries : Nat) : Nat :=
  tryProbeCallsAux probeAt cancelAt (retries + 1) 0 (retries + 1)

/-- A successful measurement whose HTTP status in the integrity report is
500 and whose validation carries no failure tags: the scorer grants it a
passing composite score while its integrity component is 0.5. -/
def mC7 : Measurement :=
  { success := true, integrity := { httpStatus := 500 } }


/-- The successful-provider projection of the FetchAll loop body: the
deduplicated source range of a provider whose fetch succeeded. -/
def fetchSuccess (ef : EndpointSpec → Except String (List CIDRNet))
    (p : ProviderSpec) : Option SourceRange :=
  match fetchProvider ef p with
  | .ok s => some { s with rangeSet := deduplicateRanges s.rangeSet }
  | .error _ => none

/-- The failed-provider projection of the FetchAll loop body: the error
string of a provider whose fetch failed. -/
def fetchFailure (ef : EndpointSpec → Except String (List CIDRNet))
    (p : ProviderSpec) : Option String :=
  match fetchProvider ef p with
  | .ok _ => none
  | .error e => some e

/-- An endpoint oracle with one failing URL (FetchAll witness scenario). -/
def efC2 : EndpointSpec → Except String (List CIDRNet) := fun e =>
  if e.url = "https://bad.example" then .error "boom" else .ok []

/-- A provider whose endpoints all succeed (empty URLs fetch nothing). -/
def pGoodC2 : ProviderSpec := { name := "good" }

/-- A provider whose IPv4 endpoint fails. -/
def pBadC2 : ProviderSpec := { name := "bad", ipv4 := { url := "https://bad.example" } }

/-- The source range the succeeding provider contributes. -/
def srGoodC2 : SourceRange :=
  { provider := pGoodC2, rangeSet := { ipv4 := [], ipv6 := [], sources := [] } }


/-- The provenance metadata the records contribute to the CIDR string c,
in record order. -/
def metasFor (recs : List RangeRecord) (c : String) : List RangeMetadata :=
  (recs.filter (fun r => r.network.cidr == c)).map (fun r => r.metadata)

/-- The entry a fresh aggregator holds for the CIDR string c after adding
the records: network of the first contributing record, metadata of all of
them. -/
def entryFor (recs : List RangeRecord) (c : String) : Option RangeEntry :=
  match recs.find? (fun r => r.network.cidr == c) with
  | some r0 => some { network := r0.network, metadata := metasFor recs c }
  | none => none

/-- A record as the cloudflare provider emits it (C4 counterexample uses
the same record contributed twice). -/
def recC4 : RangeRecord :=
  { network := { cidr := "1.1.1.0/24" }
    metadata := { source := "cloudflare", endpoint := "https://www.cloudflare.com/ips-v4",
                  retrievedAt := 0, credibility := 1 } }

/-- A record for the same CIDR from provider alpha. -/
def recC4a : RangeRecord :=
  { network := { cidr := "1.1.1.0/24" }
    metadata := { source := "alpha", endpoint := "https://a.example/v4",
                  retrievedAt := 0, credibility := 1 } }

/-- A record for the same CIDR from provider beta. -/
def recC4b : RangeRecord :=
  { network := { cidr := "1.1.1.0/24" }
    metadata := { source := "beta", endpoint := "https://b.example/v4",
                  retrievedAt := 0, credibility := 2 } }

/-! ## Theorems

Shared supporting lemmas first, then one theorem per claim (with its
witness or counterexample where required). -/

theorem goToLower_empty : goToLower "" = "" := by decide

theorem certMatchLoop_iff (m : Measurement) (l : List String) :
    certMatchLoop m l = true ↔ ∃ cn ∈ l, cnEntryMatches m cn = true := by
  simp [certMatchLoop, List.any_eq_true]

theorem readBodyMsg_ne_empty (e : String) : ("read body: " ++ e) ≠ "" := by
  intro h
  have h2 := congrArg String.length h
  simp [String.length_append] at h2
  exact absurd h2.1 (by decide)

theorem clamp01_mem (x : ℚ) : 0 ≤ clamp01 x ∧ clamp01 x ≤ 1 := by
  unfold clamp01; split_ifs <;> constructor <;> linarith

theorem normaliseIntegrity_half_le (v : ValidationResult) (status : Int)
    (h : v.failures = []) : 1/2 ≤ normaliseIntegrity v status := by
  unfold normaliseIntegrity
  rw [h]
  simp only [List.length_nil, Nat.cast_zero]
  split_ifs <;> linarith

theorem compositeScore_mC7 : compositeScore (fun _ => 0) scorerNew mC7 = 7/10 := by
  norm_num [compositeScore, normaliseLatency, successNormOf, normaliseThroughput,
    normaliseIntegrity, sourceBoost, mapLookup, scorerNew, mC7, clamp01, goToLower_empty]

theorem normaliseIntegrity_mC7 :
    normaliseIntegrity mC7.validation mC7.integrity.httpStatus = 1/2 := by
  norm_num [normaliseIntegrity, mC7]

/-- C1 counterexample: with an empty trusted-CN list and a certificate CN
different from the domain, ApplyValidation still sets CertificateMatch to
true, refuting the claimed "iff CertificateCN equals the domain" in the
empty-list case. -/
theorem applyValidation_emptyCN_cex :
    (applyValidation { domain := "example.com", certificateCN := "other.com" }
        "" []).validation.certificateMatch = true
    ∧ ({ domain := "example.com", certificateCN := "other.com" } :
        Measurement).certificateCN
      ≠ ({ domain := "example.com", certificateCN := "other.com" } :
        Measurement).domain := by
  exact ⟨rfl, by decide⟩

/-- C1 (amended): ApplyValidation sets CertificateMatch to true iff the
trusted-CN list is empty or some trimmed, lower-cased, non-empty trusted CN
matches the lower-cased certificate CN or one of the certificate DNS names;
it sets OriginMatch to true when the expected origin is empty or equals the
actual origin host case-insensitively and otherwise leaves OriginMatch at
its previous value; it appends exactly certificate_cn_mismatch and
origin_host_mismatch on the respective mismatches, and never introduces an
origin_host_missing tag. -/
theorem applyValidation_characterisation (m : Measurement) (eo : String)
    (cns : List String) :
    ((applyValidation m eo cns).validation.certificateMatch
        = (cns.isEmpty || certMatchLoop m (lowerTrustedCNs cns)))
    ∧ ((applyValidation m eo cns).validation.originMatch
        = (eo == "" || goEqualFold eo m.originHost || m.validation.originMatch))
    ∧ ((applyValidation m eo cns).validation.failures
        = m.validation.failures
          ++ (if cns ≠ [] ∧ certMatchLoop m (lowerTrustedCNs cns) = false
              then ["certificate_cn_mismatch"] else [])
          ++ (if eo ≠ "" ∧ goEqualFold eo m.originHost = false
              then ["origin_host_mismatch"] else []))
    ∧ ("origin_host_missing" ∈ (applyValidation m eo cns).validation.failures
        ↔ "origin_host_missing" ∈ m.validation.failures) := by
  unfold applyValidation
  by_cases hc : cns = [] <;> by_cases heo : eo = "" <;>
    rcases hm : certMatchLoop m (lowerTrustedCNs cns) with _ | _ <;>
    rcases ho : goEqualFold eo m.originHost with _ | _ <;>
    simp_all

/-- C6: a probe reaching the HTTP stage is successful iff the status code
lies in [200, 400) and the body read completed without error; a successful
measurement records a status code in [200, 400) and an empty error
string. -/
theorem probe_success_policy (env : ProbeEnv) (ip : Nat) (domain : String) :
    ((probe env ip domain).success = true
      ↔ ∃ st resp, env.tcpResult = .ok () ∧ env.tlsResult = .ok st
          ∧ env.httpResult = .ok resp
          ∧ 200 ≤ resp.status ∧ resp.status < 400 ∧ resp.readErr = none)
    ∧ ((probe env ip domain).success = true →
        200 ≤ (probe env ip domain).httpFingerprint.statusCode
        ∧ (probe env ip domain).httpFingerprint.statusCode < 400
        ∧ (probe env ip domain).error = "") := by
  rcases htcp : env.tcpResult with e | u
  · simp [probe, htcp]
  · rcases htls : env.tlsResult with e | st
    · simp [probe, htcp, htls]
    · rcases hhttp : env.httpResult with e | resp
      · by_cases hs : st.handshakeComplete <;> by_cases hp : st.hasPeerCert <;>
          simp [probe, htcp, htls, hhttp, hs, hp]
      · rcases hread : resp.readErr with _ | e <;>
          by_cases hs : st.handshakeComplete <;> by_cases hp : st.hasPeerCert <;>
          by_cases hd : (0 : ℚ) < env.httpDuration / 1000000000 <;>
          simp [probe, htcp, htls, hhttp, hread, hs, hp, hd, readBodyMsg_ne_empty]

/-- C6 witness: the success-policy theorem applied at a concrete
environment with a 250 status and a clean body read. -/
theorem probe_success_policy_witness :
    200 ≤ (probe { httpResult := .ok { status := 250 } } 0 "example.com").httpFingerprint.statusCode
    ∧ (probe { httpResult := .ok { status := 250 } } 0 "example.com").httpFingerprint.statusCode < 400
    ∧ (probe { httpResult := .ok { status := 250 } } 0 "example.com").error = "" :=
  (probe_success_policy { httpResult := .ok { status := 250 } } 0 "example.com").2
    (by norm_num [probe, headerGet, originHostOf, cfColoOf, goTrimSpace])

/-- C8: the composite score returned by Scorer.Score always lies in the
closed unit interval. -/
theorem score_in_unit_interval (sqrtFn : ℚ → ℚ) (cfg : ScorerConfig)
    (m : Measurement) :
    0 ≤ (score sqrtFn cfg m).score ∧ (score sqrtFn cfg m).score ≤ 1 := by
  have h : (score sqrtFn cfg m).score = compositeScore sqrtFn cfg m := by
    simp [score]
  rw [h]
  unfold compositeScore
  exact clamp01_mem _

/-- C7 counterexample: a successful measurement with empty validation
failures and integrity HTTP status 500 is marked pass while its integrity
component is 0.5 < 0.75, yet integrity_degraded is not appended, refuting
the claimed append-on-pass behaviour. -/
theorem score_status_cex :
    (score (fun _ => 0) scorerNew mC7).status = "pass"
    ∧ normaliseIntegrity mC7.validation mC7.integrity.httpStatus < 3/4
    ∧ mC7.validation.failures = []
    ∧ ¬ "integrity_degraded" ∈ (score (fun _ => 0) scorerNew mC7).failures := by
  refine ⟨?_, ?_, ?_, ?_⟩
  · simp only [score]
    rw [compositeScore_mC7]
    norm_num [show mC7.validation.failures = [] from rfl]
  · rw [normaliseIntegrity_mC7]; norm_num
  · rfl
  · simp only [score]
    rw [compositeScore_mC7]
    norm_num [show mC7.validation.failures = [] from rfl]

/-- C7 (amended): the result is pass iff the final score is at least 0.6,
the validation failure list is empty and the integrity component is at
least 0.5 (the last conjunct is implied by the empty failure list); the
integrity_degraded tag is appended exactly when the result is marked fail
with an empty failure list and integrity below 0.75. -/
theorem score_status_characterisation (sqrtFn : ℚ → ℚ) (cfg : ScorerConfig)
    (m : Measurement) :
    ((score sqrtFn cfg m).status = "pass"
      ↔ (3/5 ≤ (score sqrtFn cfg m).score ∧ m.validation.failures = []
          ∧ 1/2 ≤ normaliseIntegrity m.validation m.integrity.httpStatus))
    ∧ ((score sqrtFn cfg m).failures
        = (if (score sqrtFn cfg m).status = "fail" ∧ m.validation.failures = []
              ∧ normaliseIntegrity m.validation m.integrity.httpStatus < 3/4
           then m.validation.failures ++ ["integrity_degraded"]
           else m.validation.failures)) := by
  by_cases hsc : 3/5 ≤ compositeScore sqrtFn cfg m <;>
    by_cases hf : m.validation.failures = [] <;>
    by_cases hint : normaliseIntegrity m.validation m.integrity.httpStatus < 3/4 <;>
    simp [score, hsc, hf, hint]
  all_goals
    simpa using normaliseIntegrity_half_le m.validation m.integrity.httpStatus hf

/-- C10: the Components map always carries the latency, success,
throughput, integrity and sourcePreference keys, and a zero weight sum
replaces the composite denominator by 1, so the score stays defined. -/
theorem score_total_components (sqrtFn : ℚ → ℚ) (cfg : ScorerConfig)
    (m : Measurement) :
    ("latency" ∈ (score sqrtFn cfg m).components.map Prod.fst
      ∧ "success" ∈ (score sqrtFn cfg m).components.map Prod.fst
      ∧ "throughput" ∈ (score sqrtFn cfg m).components.map Prod.fst
      ∧ "integrity" ∈ (score sqrtFn cfg m).components.map Prod.fst
      ∧ "sourcePreference" ∈ (score sqrtFn cfg m).components.map Prod.fst)
    ∧ (cfg.latencyWeight + cfg.successWeight + cfg.throughputWeight + cfg.integrityWeight = 0 →
        (score sqrtFn cfg m).score
          = clamp01
              (let boosted :=
                (normaliseLatency (m.tcpDuration + m.tlsDuration + m.httpDuration) * cfg.latencyWeight
                  + successNormOf m * cfg.successWeight
                  + normaliseThroughput sqrtFn m.throughput * cfg.throughputWeight
                  + normaliseIntegrity m.validation m.integrity.httpStatus * cfg.integrityWeight)
                  * sourceBoost cfg m
               if 0 < m.sourceWeight then boosted * m.sourceWeight else boosted)) := by
  constructor
  · simp [score]
  · intro hw
    simp [score, compositeScore, hw]

theorem providerFetchLoop_spec (ep : String → Except String (List CIDRNet))
    (tsOf : String → Nat) (cfg : SourceConfig) :
    ∀ (l : List String) (acc : List RangeRecord × List String),
    l.foldl
      (fun (acc : List RangeRecord × List String) endpoint =>
        match ep endpoint with
        | .error e => (acc.1, acc.2 ++ [e])
        | .ok networks => (acc.1 ++ recordsFor tsOf cfg endpoint networks, acc.2))
      acc
    = (acc.1 ++ l.flatMap (fun e => match ep e with
          | .ok ns => recordsFor tsOf cfg e ns
          | .error _ => []),
       acc.2 ++ l.filterMap (fun e => match ep e with
          | .ok _ => none
          | .error msg => some msg)) := by
  intro l
  induction l with
  | nil => intro acc; simp
  | cons e rest ih =>
    intro acc
    rcases he : ep e with msg | ns <;> simp [he, ih]

/-- C5 counterexample: with two endpoints that both yield records, the
first endpoint succeeds with a non-empty record list, yet the provider
fetch returns the records of both endpoints, refuting the claim that the
fetch stops at the first endpoint that yields records. -/
theorem providerFetch_fallback_cex :
    epOracleC5 "https://a.example/v4" = .ok [{ cidr := "1.1.1.0/24" }]
    ∧ providerFetch epOracleC5 (fun _ => 0) cfgC5
      = .ok [{ network := { cidr := "1.1.1.0/24" },
               metadata := { source := "demo", endpoint := "https://a.example/v4",
                             retrievedAt := 0, credibility := 1 } },
             { network := { cidr := "2.2.2.0/24" },
               metadata := { source := "demo", endpoint := "https://b.example/v4",
                             retrievedAt := 0, credibility := 1 } }] := by
  exact ⟨rfl, rfl⟩

/-- C5 (amended): a provider fetch visits every configured endpoint URL in
order and returns the concatenation of the records of all successful
endpoints; endpoints therefore back each other up (an endpoint failure is
tolerated whenever any endpoint yields records), and an error is returned
exactly when no endpoint contributes records. -/
theorem providerFetch_characterisation (ep : String → Except String (List CIDRNet))
    (tsOf : String → Nat) (cfg : SourceConfig) :
    providerFetch ep tsOf cfg
      = (if (cfg.endpoints.flatMap (fun e => match ep e with
              | .ok ns => recordsFor tsOf cfg e ns
              | .error _ => [])) ≠ [] then
          .ok (cfg.endpoints.flatMap (fun e => match ep e with
              | .ok ns => recordsFor tsOf cfg e ns
              | .error _ => []))
         else if (cfg.endpoints.filterMap (fun e => match ep e with
              | .ok _ => none
              | .error msg => some msg)) = [] then
          .error ("all endpoints failed for " ++ cfg.name)
         else
          .error (goErrorsJoin (cfg.endpoints.filterMap (fun e => match ep e with
              | .ok _ => none
              | .error msg => some msg)))) := by
  unfold providerFetch
  rw [providerFetchLoop_spec]
  simp

/-- C10 witness: the totality theorem applied at the all-zero-weight
configuration and the zero measurement. -/
theorem score_total_components_witness :
    (score (fun _ => 0) { sourcePreference := [] } { }).score
      = clamp01
          (let boosted :=
            (normaliseLatency (0 + 0 + 0) * 0
              + successNormOf { } * 0
              + normaliseThroughput (fun _ => 0) 0 * 0
              + normaliseIntegrity ({ } : Measurement).validation
                  ({ } : Measurement).integrity.httpStatus * 0)
              * sourceBoost { sourcePreference := [] } { }
           if 0 < ({ } : Measurement).sourceWeight
           then boosted * ({ } : Measurement).sourceWeight else boosted) :=
  (score_total_components (fun _ => 0) { sourcePreference := [] } { }).2 (by norm_num)

/-- The attempt-loop invariant behind tryProbe: at least one and at most
fuel prober invocations; every attempt before the last returned an
unsuccessful measurement with an uncancelled pause; an ok result is the
last attempted probe's measurement; an error result is the last attempt's
probe error or the context error of its cancelled pause. -/
theorem tryProbeAux_spec (P : Nat → Except String Measurement)
    (C : Nat → Option String) (attempts : Nat) :
    ∀ (fuel start : Nat), start + fuel = attempts → start < attempts →
    (1 ≤ tryProbeCallsAux P C attempts start fuel
      ∧ start + tryProbeCallsAux P C attempts start fuel ≤ attempts)
    ∧ (∀ j, j + 1 < tryProbeCallsAux P C attempts start fuel →
        ∃ mj, P (start + j) = .ok mj ∧ mj.success = false ∧ C (start + j) = none)
    ∧ (∀ m, tryProbeAux P C attempts start fuel = .ok m →
        P (start + tryProbeCallsAux P C attempts start fuel - 1) = .ok m)
    ∧ (∀ e, tryProbeAux P C attempts start fuel = .error e →
        (P (start + tryProbeCallsAux P C attempts start fuel - 1) = .error e
          ∨ ∃ mi, P (start + tryProbeCallsAux P C attempts start fuel - 1) = .ok mi
              ∧ mi.success = false
              ∧ start + tryProbeCallsAux P C attempts start fuel - 1 ≠ attempts - 1
              ∧ C (start + tryProbeCallsAux P C attempts start fuel - 1) = some e)) := by
  intro fuel
  induction fuel with
  | zero => intro start h hlt; omega
  | succ fuel ih =>
    intro start h hlt
    rcases hP : P start with e | m
    · refine ⟨⟨?_, ?_⟩, ?_, ?_, ?_⟩ <;>
        simp [tryProbeAux, tryProbeCallsAux, hP] <;> omega
    · by_cases hcond : (m.success = true ∨ start = attempts - 1)
      · have hcalls : tryProbeCallsAux P C attempts start (fuel + 1) = 1 := by
          simp [tryProbeCallsAux, hP, hcond]
        refine ⟨⟨?_, ?_⟩, ?_, ?_, ?_⟩
        · omega
        · omega
        · intro j hj; exfalso; omega
        · intro m2 hm2
          rw [hcalls]
          simp [tryProbeAux, hP, hcond] at hm2
          simpa [hm2] using hP
        · intro e he; exfalso; simp [tryProbeAux, hP, hcond] at he
      · rcases hC : C start with _ | e
        · -- recursive case
          have h1 : start + 1 + fuel = attempts := by omega
          have h2 : start + 1 < attempts := by
            rcases not_or.mp hcond with ⟨_, hne⟩
            omega
          obtain ⟨⟨ih1a, ih1b⟩, ih2, ih3, ih4⟩ := ih (start + 1) h1 h2
          have hcalls : tryProbeCallsAux P C attempts start (fuel + 1)
              = 1 + tryProbeCallsAux P C attempts (start + 1) fuel := by
            simp [tryProbeCallsAux, hP, hcond, hC]
          have hres : tryProbeAux P C attempts start (fuel + 1)
              = tryProbeAux P C attempts (start + 1) fuel := by
            simp [tryProbeAux, hP, hcond, hC]
          refine ⟨⟨?_, ?_⟩, ?_, ?_, ?_⟩
          · omega
          · omega
          · intro j hj
            rw [hcalls] at hj
            match j with
            | 0 =>
              refine ⟨m, hP, ?_, hC⟩
              rcases not_or.mp hcond with ⟨hs, _⟩
              simpa using hs
            | j' + 1 =>
              have := ih2 j' (by omega)
              simpa [Nat.add_assoc, Nat.add_comm 1 j'] using this
          · intro m2 hm2
            rw [hres] at hm2
            have := ih3 m2 hm2
            have hidx : start + 1 + tryProbeCallsAux P C attempts (start + 1) fuel - 1
                = start + tryProbeCallsAux P C attempts start (fuel + 1) - 1 := by omega
            rwa [hidx] at this
          · intro e2 he2
            rw [hres] at he2
            have := ih4 e2 he2
            have hidx : start + 1 + tryProbeCallsAux P C attempts (start + 1) fuel - 1
                = start + tryProbeCallsAux P C attempts start (fuel + 1) - 1 := by omega
            rwa [hidx] at this
        · have hcalls : tryProbeCallsAux P C attempts start (fuel + 1) = 1 := by
            simp [tryProbeCallsAux, hP, hcond, hC]
          refine ⟨⟨?_, ?_⟩, ?_, ?_, ?_⟩
          · omega
          · omega
          · intro j hj; exfalso; omega
          · intro m2 hm2; exfalso; simp [tryProbeAux, hP, hcond, hC] at hm2
          · intro e2 he2
            rw [hcalls]
            simp [tryProbeAux, hP, hcond, hC] at he2
            rcases not_or.mp hcond with ⟨hs, hne⟩
            right
            refine ⟨m, by simpa using hP, by simpa using hs, by simpa using hne, ?_⟩
            simp [hC, he2]


/-- C9: tryProbe invokes the prober between 1 and Retries+1 times, retries
only after a measurement with success = false whose inter-attempt pause was
not cancelled, returns the last attempt's measurement regardless of its
outcome, and an error return is either the last probe's error or the
context error observed when cancellation fired during the pause. -/
theorem tryProbe_retry_policy (P : Nat → Except String Measurement)
    (C : Nat → Option String) (r : Nat) :
    (1 ≤ tryProbeCalls P C r ∧ tryProbeCalls P C r ≤ r + 1)
    ∧ (∀ j, j + 1 < tryProbeCalls P C r →
        ∃ mj, P j = .ok mj ∧ mj.success = false ∧ C j = none)
    ∧ (∀ m, tryProbe P C r = .ok m → P (tryProbeCalls P C r - 1) = .ok m)
    ∧ (∀ e, tryProbe P C r = .error e →
        (P (tryProbeCalls P C r - 1) = .error e
          ∨ ∃ mi, P (tryProbeCalls P C r - 1) = .ok mi ∧ mi.success = false
              ∧ tryProbeCalls P C r - 1 ≠ r ∧ C (tryProbeCalls P C r - 1) = some e)) := by
  have h := tryProbeAux_spec P C (r + 1) (r + 1) 0 (by omega) (by omega)
  simpa [tryProbe, tryProbeCalls] using h

/-- C9 witness: the retry-policy theorem applied to a prober that succeeds
immediately with Retries = 1. -/
theorem tryProbe_retry_policy_witness :
    (fun _ : Nat => (Except.ok ({ success := true } : Measurement) : Except String Measurement))
        (tryProbeCalls
          (fun _ : Nat => (Except.ok ({ success := true } : Measurement) : Except String Measurement))
          (fun _ : Nat => (none : Option String)) 1 - 1)
      = Except.ok ({ success := true } : Measurement) :=
  (tryProbe_retry_policy
      (fun _ : Nat => (Except.ok ({ success := true } : Measurement) : Except String Measurement))
      (fun _ : Nat => (none : Option String)) 1).2.2.1 { success := true } rfl

/-- randomIP lands inside the network: the drawn offset is below 2^span and
the base address of a parsed network is aligned to the mask, so masking the
result recovers the base. -/
theorem randomIP_contains (n : IPNet) (draw : Nat) (ip : Nat)
    (hbase : n.base % 2 ^ (n.bits - n.ones) = 0)
    (h : randomIP n draw = some ip) :
    ipnetContains n ip = true := by
  unfold randomIP at h
  by_cases h1 : n.ones = 0 ∧ n.bits = 0
  · rw [if_pos h1] at h; exact absurd h (by simp)
  · rw [if_neg h1] at h
    by_cases h2 : n.bits ≤ n.ones
    · rw [if_pos h2] at h
      injection h with h
      subst h
      simp [ipnetContains]
    · rw [if_neg h2] at h
      injection h with h
      subst h
      unfold ipnetContains
      rw [beq_iff_eq]
      obtain ⟨q, hq⟩ := Nat.dvd_of_mod_eq_zero hbase
      have hpos : 0 < 2 ^ (n.bits - n.ones) := Nat.pos_pow_of_pos _ (by norm_num)
      have hlt : draw % 2 ^ (n.bits - n.ones) < 2 ^ (n.bits - n.ones) :=
        Nat.mod_lt _ hpos
      rw [hq, Nat.mul_add_div hpos, Nat.div_eq_of_lt hlt, Nat.mul_div_cancel_left _ hpos]
      omega

/-- pickUniqueIP only returns an IP produced by randomIP from one of its
draws, never one already in the history, and records the pick by consing it
onto the history before returning. -/
theorem pickUniqueIP_fresh (n : IPNet) :
    ∀ (draws history : List Nat) (ip : Nat) (h2 : List Nat),
    pickUniqueIP n history draws = (some ip, h2) →
    (∃ d ∈ draws, randomIP n d = some ip) ∧ ip ∉ history ∧ h2 = ip :: history := by
  intro draws
  induction draws with
  | nil => intro history ip h2 h; simp [pickUniqueIP] at h
  | cons d rest ih =>
    intro history ip h2 h
    rw [pickUniqueIP] at h
    rcases hr : randomIP n d with _ | v
    · rw [hr] at h; simp at h
    · rw [hr] at h
      by_cases hmem : v ∈ history
      · simp only [hmem, if_true] at h
        obtain ⟨⟨d2, hd2, hrd2⟩, hnotin, hcons⟩ := ih history ip h2 h
        exact ⟨⟨d2, by simp [hd2], hrd2⟩, hnotin, hcons⟩
      · simp only [hmem, if_false] at h
        simp only [Prod.mk.injEq, Option.some.injEq] at h
        obtain ⟨hip, hh2⟩ := h
        subst hip
        exact ⟨⟨d, by simp, hr⟩, hmem, hh2.symm⟩


/-- C3: a picked candidate IP lies in its network (for mask-aligned
networks, as net.ParseCIDR produces), was not in the sampler history before
the pick, is recorded in the history before it is emitted, and no later
pick from the updated history can emit the same IP again. -/
theorem pickUniqueIP_spec (n : IPNet) (history draws : List Nat) (ip : Nat)
    (h2 : List Nat)
    (hbase : n.base % 2 ^ (n.bits - n.ones) = 0)
    (hpick : pickUniqueIP n history draws = (some ip, h2)) :
    ipnetContains n ip = true
    ∧ ip ∉ history
    ∧ h2 = ip :: history
    ∧ (∀ n2 draws2 ip2 h3, pickUniqueIP n2 h2 draws2 = (some ip2, h3) → ip2 ≠ ip) := by
  obtain ⟨⟨d, hd, hrd⟩, hnotin, hcons⟩ := pickUniqueIP_fresh n draws history ip h2 hpick
  refine ⟨randomIP_contains n d ip hbase hrd, hnotin, hcons, ?_⟩
  intro n2 draws2 ip2 h3 hp2
  obtain ⟨_, hnotin2, _⟩ := pickUniqueIP_fresh n2 draws2 h2 ip2 h3 hp2
  intro heq
  subst heq
  rw [hcons] at hnotin2
  exact hnotin2 (List.mem_cons_self _ _)

/-- C3 witness: the pick specification applied to the 8-aligned /29-style
block with base 8 in a fresh sampler, drawing offset 3. -/
theorem pickUniqueIP_spec_witness :
    ipnetContains { base := 8, ones := 29, bits := 32 } 11 = true
    ∧ 11 ∉ ([] : List Nat)
    ∧ ([11] : List Nat) = 11 :: []
    ∧ (∀ n2 draws2 ip2 h3, pickUniqueIP n2 [11] draws2 = (some ip2, h3) → ip2 ≠ 11) :=
  pickUniqueIP_spec { base := 8, ones := 29, bits := 32 } [] [3] 11 [11]
    (by decide) (by decide)

/-- The FetchAll provider loop collects exactly the deduplicated source
ranges of the succeeding providers and the error strings of the failing
providers, in provider order. -/
theorem fetchAllLoop_spec (ef : EndpointSpec → Except String (List CIDRNet)) :
    ∀ (l : List ProviderSpec),
    fetchAllLoop ef l
      = (l.filterMap (fetchSuccess ef), l.filterMap (fetchFailure ef)) := by
  have general : ∀ (l : List ProviderSpec) (acc : List SourceRange × List String),
      l.foldl
        (fun acc p =>
          match fetchProvider ef p with
          | .error e => (acc.1, acc.2 ++ [e])
          | .ok s => (acc.1 ++ [{ s with rangeSet := deduplicateRanges s.rangeSet }], acc.2))
        acc
      = (acc.1 ++ l.filterMap (fetchSuccess ef), acc.2 ++ l.filterMap (fetchFailure ef)) := by
    intro l
    induction l with
    | nil => intro acc; simp
    | cons p rest ih =>
      intro acc
      rcases hp : fetchProvider ef p with e | s <;>
        simp [fetchSuccess, fetchFailure, hp, ih]
  intro l
  unfold fetchAllLoop
  rw [general]
  simp

/-- C2: for a non-empty provider list, FetchAll returns the deduplicated
source range of every provider whose fetch succeeded; the returned error is
none iff no provider failed and otherwise lists the failed providers'
errors behind the partial-failure prefix; a hard error (no results) is
returned exactly when every provider failed, carrying the total-failure
prefix. -/
theorem fetchAll_partial_error_semantics (ef : EndpointSpec → Except String (List CIDRNet))
    (providers : List ProviderSpec) (hne : providers ≠ []) :
    (∀ rs msg, fetchAll ef providers = .ok (rs, msg) →
        rs = providers.filterMap (fetchSuccess ef)
        ∧ rs ≠ []
        ∧ msg = (if providers.filterMap (fetchFailure ef) = [] then none
                 else some ("部分数据源抓取失败: "
                   ++ String.intercalate "; " (providers.filterMap (fetchFailure ef)))))
    ∧ (∀ e, fetchAll ef providers = .error e →
        (∀ p ∈ providers, fetchSuccess ef p = none)
        ∧ e = "全部数据源抓取失败: "
              ++ String.intercalate "; " (providers.filterMap (fetchFailure ef)))
    ∧ ((∀ p ∈ providers, fetchSuccess ef p = none) →
        ∃ e, fetchAll ef providers = .error e) := by
  unfold fetchAll
  rw [if_neg hne, fetchAllLoop_spec]
  by_cases hrs : providers.filterMap (fetchSuccess ef) = [] <;>
    by_cases herr : providers.filterMap (fetchFailure ef) = [] <;>
    simp [hrs, herr, List.filterMap_eq_nil_iff]
  all_goals
    first
    | (intro p hp
       exact (List.filterMap_eq_nil_iff.mp hrs) p hp)
    | (obtain ⟨y, hy⟩ := List.exists_mem_of_ne_nil _ hrs
       obtain ⟨p, hp, hfp⟩ := List.mem_filterMap.mp hy
       exact ⟨p, hp, by simp [hfp]⟩)


/-- C2 witness: the FetchAll semantics applied to one succeeding and one
failing provider. -/
theorem fetchAll_partial_error_semantics_witness :
    [srGoodC2] = [pGoodC2, pBadC2].filterMap (fetchSuccess efC2)
    ∧ [srGoodC2] ≠ []
    ∧ (some ("部分数据源抓取失败: bad ipv4: boom") : Option String)
      = (if [pGoodC2, pBadC2].filterMap (fetchFailure efC2) = [] then none
         else some ("部分数据源抓取失败: "
           ++ String.intercalate "; " ([pGoodC2, pBadC2].filterMap (fetchFailure efC2)))) :=
  (fetchAll_partial_error_semantics efC2 [pGoodC2, pBadC2] (by simp)).1
    [srGoodC2] (some ("部分数据源抓取失败: bad ipv4: boom")) (by rfl)



theorem stringData_inj {a b : String} (h : a.data = b.data) : a = b := by
  cases a; cases b
  exact congrArg String.mk h

theorem charListLt_cons (a b : Char) (as bs : List Char) :
    charListLt (a :: as) (b :: bs) = true ↔
      (a.toNat < b.toNat ∨ (a = b ∧ charListLt as bs = true)) := by
  by_cases h1 : a.toNat < b.toNat
  · simp [charListLt, h1]
  · by_cases h2 : b.toNat < a.toNat
    · have hne : a ≠ b := by
        intro h; subst h; omega
      simp [charListLt, h1, h2, hne]
    · have hab : a = b :=
        Char.ext (UInt32.toNat.inj (Nat.le_antisymm (Nat.not_lt.mp h2) (Nat.not_lt.mp h1)))
      simp [charListLt, h1, h2, hab]

theorem charListLt_irrefl : ∀ l, charListLt l l = false := by
  intro l
  induction l with
  | nil => simp [charListLt]
  | cons a as ih => simp [charListLt, ih]

theorem charListLt_trans :
    ∀ l1 l2 l3, charListLt l1 l2 = true → charListLt l2 l3 = true →
      charListLt l1 l3 = true := by
  intro l1
  induction l1 with
  | nil =>
    intro l2 l3 h12 h23
    rcases l3 with _ | ⟨c, cs⟩
    · rcases l2 with _ | ⟨b, bs⟩ <;> simp [charListLt] at h12 h23
    · simp [charListLt]
  | cons a as ih =>
    intro l2 l3 h12 h23
    rcases l2 with _ | ⟨b, bs⟩
    · simp [charListLt] at h12
    · rcases l3 with _ | ⟨c, cs⟩
      · simp [charListLt] at h23
      · rw [charListLt_cons] at h12 h23 ⊢
        rcases h12 with h12 | ⟨rfl, h12⟩ <;> rcases h23 with h23 | ⟨h23e, h23⟩
        · exact Or.inl (by omega)
        · subst h23e; exact Or.inl h12
        · exact Or.inl h23
        · subst h23e; exact Or.inr ⟨rfl, ih bs cs h12 h23⟩

theorem charListLt_total :
    ∀ l1 l2, charListLt l1 l2 = true ∨ l1 = l2 ∨ charListLt l2 l1 = true := by
  intro l1
  induction l1 with
  | nil =>
    intro l2
    rcases l2 with _ | ⟨b, bs⟩
    · simp
    · simp [charListLt]
  | cons a as ih =>
    intro l2
    rcases l2 with _ | ⟨b, bs⟩
    · simp [charListLt]
    · rcases Nat.lt_trichotomy a.toNat b.toNat with h | h | h
      · exact Or.inl ((charListLt_cons _ _ _ _).mpr (Or.inl h))
      · have hab : a = b := Char.ext (UInt32.toNat.inj h)
        subst hab
        rcases ih bs with h2 | h2 | h2
        · exact Or.inl ((charListLt_cons _ _ _ _).mpr (Or.inr ⟨rfl, h2⟩))
        · exact Or.inr (Or.inl (by rw [h2]))
        · exact Or.inr (Or.inr ((charListLt_cons _ _ _ _).mpr (Or.inr ⟨rfl, h2⟩)))
      · exact Or.inr (Or.inr ((charListLt_cons _ _ _ _).mpr (Or.inl h)))

theorem charListLt_asymm (l1 l2 : List Char)
    (h : charListLt l1 l2 = true) : charListLt l2 l1 = false := by
  by_contra hc
  have h2 : charListLt l2 l1 = true := by
    rcases hb : charListLt l2 l1 with _ | _
    · exact absurd hb hc
    · rfl
  have h3 := charListLt_trans l1 l2 l1 h h2
  rw [charListLt_irrefl] at h3
  exact Bool.false_ne_true h3

theorem goStringLt_total (a b : String) :
    goStringLt a b = true ∨ a = b ∨ goStringLt b a = true := by
  rcases charListLt_total a.data b.data with h | h | h
  · exact Or.inl h
  · exact Or.inr (Or.inl (stringData_inj h))
  · exact Or.inr (Or.inr h)

theorem metaLe_total : ∀ a b : RangeMetadata, metaLe a b ∨ metaLe b a := by
  intro a b
  rcases goStringLt_total a.source b.source with h | h | h
  · exact Or.inl (Or.inl h)
  · rcases goStringLt_total a.endpoint b.endpoint with h2 | h2 | h2
    · exact Or.inl (Or.inr ⟨h, Or.inl h2⟩)
    · exact Or.inl (Or.inr ⟨h, Or.inr h2⟩)
    · exact Or.inr (Or.inr ⟨h.symm, Or.inl h2⟩)
  · exact Or.inr (Or.inl h)

theorem metaLe_trans : ∀ a b c : RangeMetadata, metaLe a b → metaLe b c → metaLe a c := by
  intro a b c hab hbc
  rcases hab with h1 | ⟨h1, h1e⟩
  · rcases hbc with h2 | ⟨h2, _⟩
    · exact Or.inl (charListLt_trans _ _ _ h1 h2)
    · exact Or.inl (h2 ▸ h1)
  · rcases hbc with h2 | ⟨h2, h2e⟩
    · exact Or.inl (h1 ▸ h2)
    · refine Or.inr ⟨h1.trans h2, ?_⟩
      rcases h1e with h1e | h1e
      · rcases h2e with h2e | h2e
        · exact Or.inl (charListLt_trans _ _ _ h1e h2e)
        · exact Or.inl (h2e ▸ h1e)
      · rcases h2e with h2e | h2e
        · exact Or.inl (h1e ▸ h2e)
        · exact Or.inr (h1e.trans h2e)

theorem entryLe_total : ∀ a b : RangeEntry, entryLe a b ∨ entryLe b a := by
  intro a b
  rcases goStringLt_total a.network.cidr b.network.cidr with h | h | h
  · exact Or.inl (Or.inl h)
  · exact Or.inl (Or.inr h)
  · exact Or.inr (Or.inl h)

theorem entryLe_trans : ∀ a b c : RangeEntry, entryLe a b → entryLe b c → entryLe a c := by
  intro a b c hab hbc
  rcases hab with h1 | h1
  · rcases hbc with h2 | h2
    · exact Or.inl (charListLt_trans _ _ _ h1 h2)
    · exact Or.inl (h2 ▸ h1)
  · rcases hbc with h2 | h2
    · exact Or.inl (h1 ▸ h2)
    · exact Or.inr (h1.trans h2)

theorem metaLe_keys_eq {a b : RangeMetadata} (hab : metaLe a b) (hba : metaLe b a) :
    a.source = b.source ∧ a.endpoint = b.endpoint := by
  rcases hab with h1 | ⟨h1, h1e⟩
  · rcases hba with h2 | ⟨h2, _⟩
    · have h3 : goStringLt b.source a.source = false := charListLt_asymm _ _ h1
      rw [h3] at h2
      exact absurd h2 Bool.false_ne_true
    · rw [h2] at h1
      rw [show goStringLt a.source a.source = false from charListLt_irrefl _] at h1
      exact absurd h1 Bool.false_ne_true
  · rcases hba with h2 | ⟨h2, h2e⟩
    · rw [h1] at h2
      rw [show goStringLt b.source b.source = false from charListLt_irrefl _] at h2
      exact absurd h2 Bool.false_ne_true
    · refine ⟨h1, ?_⟩
      rcases h1e with h1e | h1e
      · rcases h2e with h2e | h2e
        · have h3 : goStringLt b.endpoint a.endpoint = false := charListLt_asymm _ _ h1e
          rw [h3] at h2e
          exact absurd h2e Bool.false_ne_true
        · exact h2e.symm
      · exact h1e

theorem entryLe_keys_eq {a b : RangeEntry} (hab : entryLe a b) (hba : entryLe b a) :
    a.network.cidr = b.network.cidr := by
  rcases hab with h1 | h1
  · rcases hba with h2 | h2
    · have h3 : goStringLt b.network.cidr a.network.cidr = false := charListLt_asymm _ _ h1
      rw [h3] at h2
      exact absurd h2 Bool.false_ne_true
    · exact h2.symm
  · exact h1


theorem sorted_perm_eq {α : Type} {r : α → α → Prop} :
    ∀ {l₁ l₂ : List α}, (∀ a ∈ l₁, ∀ b ∈ l₁, r a b → r b a → a = b) →
    l₁.Perm l₂ → l₁.Sorted r → l₂.Sorted r → l₁ = l₂ := by
  intro l₁
  induction l₁ with
  | nil => intro l₂ _ hp _ _; exact (hp.nil_eq).symm ▸ rfl
  | cons a t ih =>
    intro l₂ hanti hp hs₁ hs₂
    rcases l₂ with _ | ⟨b, t₂⟩
    · exact absurd hp.symm (by simp)
    · have hab : a = b := by
        by_cases heq : a = b
        · exact heq
        · have hain : a ∈ b :: t₂ := hp.mem_iff.mp (by simp)
          have hbin : b ∈ a :: t := hp.mem_iff.mpr (by simp)
          have ha2 : a ∈ t₂ := by
            rcases hain with _ | h
            · exact absurd rfl heq
            · assumption
          have hb2 : b ∈ t := by
            rcases hbin with _ | h
            · exact absurd rfl (fun h => heq h.symm)
            · assumption
          have hrab : r a b := (List.sorted_cons.mp hs₁).1 b hb2
          have hrba : r b a := (List.sorted_cons.mp hs₂).1 a ha2
          exact hanti a (by simp) b (by simp [hb2]) hrab hrba
      subst hab
      have hpt : t.Perm t₂ := hp.cons_inv
      have ht : t = t₂ :=
        ih (fun x hx y hy => hanti x (by simp [hx]) y (by simp [hy]))
          hpt (List.sorted_cons.mp hs₁).2 (List.sorted_cons.mp hs₂).2
      rw [ht]

theorem find?_map_key_preserving (f : RangeEntry → RangeEntry)
    (hf : ∀ e, (f e).network = e.network) (c : String) :
    ∀ st : List RangeEntry,
    (st.map f).find? (fun e => e.network.cidr == c)
      = (st.find? (fun e => e.network.cidr == c)).map f := by
  intro st
  induction st with
  | nil => simp
  | cons e t ih =>
    by_cases h : e.network.cidr == c
    · simp [List.find?_cons, hf, h]
    · simp only [List.map_cons, List.find?_cons, hf, h]
      simpa [hf, h] using ih

theorem aggAddOne_find (st : List RangeEntry) (r : RangeRecord) (c : String) :
    (aggAddOne st r).find? (fun e => e.network.cidr == c)
      = if r.network.cidr = c then
          match st.find? (fun e => e.network.cidr == c) with
          | some e => some { e with metadata := e.metadata ++ [r.metadata] }
          | none => some { network := r.network, metadata := [r.metadata] }
        else st.find? (fun e => e.network.cidr == c) := by
  unfold aggAddOne
  by_cases hany : st.any (fun e => e.network.cidr == r.network.cidr)
  · rw [if_pos hany]
    rw [find?_map_key_preserving _ (fun e => by split <;> rfl) c st]
    by_cases hc : r.network.cidr = c
    · subst hc
      have hsome : (st.find? (fun e => e.network.cidr == r.network.cidr)).isSome := by
        rw [List.find?_isSome]
        simpa using List.any_eq_true.mp hany
      rcases hfind : st.find? (fun e => e.network.cidr == r.network.cidr) with _ | e
      · rw [hfind] at hsome; simp at hsome
      · have hkeq : e.network.cidr = r.network.cidr := by
          simpa using List.find?_some hfind
        simp [hfind, hkeq]
    · rcases hfind : st.find? (fun e => e.network.cidr == c) with _ | e
      · simp [hfind, hc]
      · have hkeq : e.network.cidr = c := by
          simpa using List.find?_some hfind
        have hne : ¬ (e.network.cidr = r.network.cidr) := by
          intro hcon
          exact hc (hcon.symm.trans hkeq)
        simp [hfind, hc, hne]
  · rw [if_neg hany]
    rw [List.find?_append]
    by_cases hc : r.network.cidr = c
    · subst hc
      have hnone : st.find? (fun e => e.network.cidr == r.network.cidr) = none := by
        rw [List.find?_eq_none]
        intro e he
        intro hcon
        exact (List.any_eq_true.not.mp hany) ⟨e, he, hcon⟩
      simp [hnone]
    · rcases hfind : st.find? (fun e => e.network.cidr == c) with _ | e <;>
        simp [hfind, hc]

theorem aggAddOne_keys (st : List RangeEntry) (r : RangeRecord) :
    (aggAddOne st r).map (fun e => e.network.cidr)
      = if st.any (fun e => e.network.cidr == r.network.cidr)
        then st.map (fun e => e.network.cidr)
        else st.map (fun e => e.network.cidr) ++ [r.network.cidr] := by
  unfold aggAddOne
  by_cases hany : st.any (fun e => e.network.cidr == r.network.cidr) <;>
    simp only [hany, if_true, if_false, List.map_append, List.map_map, List.map_cons,
      List.map_nil]
  · refine List.map_congr_left ?_
    intro e _
    by_cases h : e.network.cidr = r.network.cidr <;> simp [h]
  · simp

theorem aggAdd_find (c : String) :
    ∀ (recs : List RangeRecord) (st : List RangeEntry),
    (aggAdd st recs).find? (fun e => e.network.cidr == c)
      = match st.find? (fun e => e.network.cidr == c) with
        | some e => some { e with metadata := e.metadata ++ metasFor recs c }
        | none => entryFor recs c := by
  intro recs
  induction recs with
  | nil =>
    intro st
    rcases hfind : st.find? (fun e => e.network.cidr == c) with _ | e <;>
      simp [aggAdd, hfind, metasFor, entryFor]
  | cons r rest ih =>
    intro st
    have hstep : aggAdd st (r :: rest) = aggAdd (aggAddOne st r) rest := rfl
    rw [hstep, ih (aggAddOne st r), aggAddOne_find]
    by_cases hc : r.network.cidr = c
    · have hfilter : metasFor (r :: rest) c = r.metadata :: metasFor rest c := by
        simp [metasFor, hc]
      have hentry : entryFor (r :: rest) c
          = some { network := r.network, metadata := r.metadata :: metasFor rest c } := by
        simp [entryFor, List.find?_cons, hc, hfilter]
      rw [if_pos hc]
      rcases hfind : st.find? (fun e => e.network.cidr == c) with _ | e <;>
        simp [hfind, hentry, hfilter]
    · have hfilter : metasFor (r :: rest) c = metasFor rest c := by
        simp [metasFor, hc]
      have hentry : entryFor (r :: rest) c = entryFor rest c := by
        simp [entryFor, List.find?_cons, hc, hfilter]
      rw [if_neg hc]
      rcases hfind : st.find? (fun e => e.network.cidr == c) with _ | e <;>
        simp [hfind, hentry, hfilter]

theorem aggAdd_keys_nodup :
    ∀ (recs : List RangeRecord) (st : List RangeEntry),
    (st.map (fun e => e.network.cidr)).Nodup →
    ((aggAdd st recs).map (fun e => e.network.cidr)).Nodup := by
  intro recs
  induction recs with
  | nil => intro st h; exact h
  | cons r rest ih =>
    intro st h
    have hstep : aggAdd st (r :: rest) = aggAdd (aggAddOne st r) rest := rfl
    rw [hstep]
    refine ih _ ?_
    rw [aggAddOne_keys]
    by_cases hany : st.any (fun e => e.network.cidr == r.network.cidr)
    · simpa [hany] using h
    · have hnotin : r.network.cidr ∉ st.map (fun e => e.network.cidr) := by
        intro hmem
        obtain ⟨e, he, hke⟩ := List.mem_map.mp hmem
        exact (List.any_eq_true.not.mp hany) ⟨e, he, by simp [hke]⟩
      simp [hany, List.nodup_append, h, hnotin]

theorem find?_eq_self_of_mem :
    ∀ (st : List RangeEntry),
    (st.map (fun e => e.network.cidr)).Nodup →
    ∀ e ∈ st, st.find? (fun x => x.network.cidr == e.network.cidr) = some e := by
  intro st
  induction st with
  | nil => intro _ e he; simp at he
  | cons a t ih =>
    intro hnd e he
    rcases List.mem_cons.mp he with rfl | het
    · simp [List.find?_cons]
    · have hnd2 : (a.network.cidr :: t.map (fun x => x.network.cidr)).Nodup := hnd
      have hka : a.network.cidr ≠ e.network.cidr := by
        intro hcon
        have hmem : e.network.cidr ∈ t.map (fun x => x.network.cidr) :=
          List.mem_map.mpr ⟨e, het, rfl⟩
        exact (List.nodup_cons.mp hnd2).1 (hcon ▸ hmem)
      rw [List.find?_cons_of_neg _ (by simpa using hka)]
      exact ih (List.nodup_cons.mp hnd2).2 e het

theorem assoc_perm_of_same_find (s1 s2 : List RangeEntry)
    (h1 : (s1.map (fun e => e.network.cidr)).Nodup)
    (h2 : (s2.map (fun e => e.network.cidr)).Nodup)
    (hf : ∀ c, s1.find? (fun e => e.network.cidr == c)
        = s2.find? (fun e => e.network.cidr == c)) :
    s1.Perm s2 := by
  rw [List.perm_ext_iff_of_nodup (List.Nodup.of_map _ h1) (List.Nodup.of_map _ h2)]
  intro e
  constructor
  · intro he
    have h3 := find?_eq_self_of_mem s1 h1 e he
    rw [hf] at h3
    exact List.mem_of_find?_eq_some h3
  · intro he
    have h3 := find?_eq_self_of_mem s2 h2 e he
    rw [← hf] at h3
    exact List.mem_of_find?_eq_some h3

theorem aggAdd_append (st : List RangeEntry) (a b : List RangeRecord) :
    aggAdd st (a ++ b) = aggAdd (aggAdd st a) b :=
  List.foldl_append _ _ _ _

theorem mem_eq_of_nodup_map {α β : Type} (f : α → β) :
    ∀ (l : List α), (l.map f).Nodup →
    ∀ a ∈ l, ∀ b ∈ l, f a = f b → a = b := by
  intro l
  induction l with
  | nil => intro _ a ha; simp at ha
  | cons x t ih =>
    intro hnd a ha b hb hf
    have hnd2 : (f x :: t.map f).Nodup := hnd
    rcases List.mem_cons.mp ha with rfl | hat
    · rcases List.mem_cons.mp hb with rfl | hbt
      · rfl
      · exact absurd (hf ▸ List.mem_map.mpr ⟨b, hbt, rfl⟩)
          (List.nodup_cons.mp hnd2).1
    · rcases List.mem_cons.mp hb with rfl | hbt
      · exact absurd (hf ▸ List.mem_map.mpr ⟨a, hat, rfl⟩)
          (fun h => (List.nodup_cons.mp hnd2).1 h)
      · exact ih (List.nodup_cons.mp hnd2).2 a hat b hbt hf


theorem aggResult_map_find (L : List RangeRecord) (c : String) :
    ((aggAdd [] L).map
        (fun e => { e with metadata := List.insertionSort metaLe e.metadata })).find?
        (fun e => e.network.cidr == c)
      = (entryFor L c).map
          (fun e => { e with metadata := List.insertionSort metaLe e.metadata }) := by
  have hmap := find?_map_key_preserving
    (fun e => { e with metadata := List.insertionSort metaLe e.metadata })
    (fun e => rfl) c (aggAdd [] L)
  rw [hmap, aggAdd_find c L]
  simp

theorem entryFor_sort_eq (L1 L2 : List RangeRecord) (hperm : L1.Perm L2)
    (hnet : ∀ r ∈ L1, ∀ r' ∈ L1, r.network.cidr = r'.network.cidr →
        r.network = r'.network)
    (hprov : ∀ r ∈ L1, ∀ r' ∈ L1, r.network.cidr = r'.network.cidr →
        (r.metadata.source, r.metadata.endpoint)
          = (r'.metadata.source, r'.metadata.endpoint) →
        r.metadata = r'.metadata)
    (c : String) :
    (entryFor L1 c).map
        (fun e => { e with metadata := List.insertionSort metaLe e.metadata })
      = (entryFor L2 c).map
          (fun e => { e with metadata := List.insertionSort metaLe e.metadata }) := by
  haveI : IsTotal RangeMetadata metaLe := ⟨metaLe_total⟩
  haveI : IsTrans RangeMetadata metaLe := ⟨metaLe_trans⟩
  unfold entryFor
  rcases h1 : L1.find? (fun r => r.network.cidr == c) with _ | r1
  · have h2 : L2.find? (fun r => r.network.cidr == c) = none := by
      rw [List.find?_eq_none] at h1 ⊢
      intro x hx
      exact h1 x (hperm.mem_iff.mpr hx)
    simp [h1, h2]
  · have hr1L : r1 ∈ L1 := List.mem_of_find?_eq_some h1
    have hr1c : r1.network.cidr = c := by simpa using List.find?_some h1
    have h2some : (L2.find? (fun r => r.network.cidr == c)).isSome := by
      rw [List.find?_isSome]
      exact ⟨r1, hperm.mem_iff.mp hr1L, by simpa using hr1c⟩
    rcases h2 : L2.find? (fun r => r.network.cidr == c) with _ | r2
    · rw [h2] at h2some; simp at h2some
    · have hr2L : r2 ∈ L1 := hperm.mem_iff.mpr (List.mem_of_find?_eq_some h2)
      have hr2c : r2.network.cidr = c := by simpa using List.find?_some h2
      have hnet12 : r1.network = r2.network :=
        hnet r1 hr1L r2 hr2L (hr1c.trans hr2c.symm)
      have hp : (metasFor L1 c).Perm (metasFor L2 c) := (hperm.filter _).map _
      have hmetas : List.insertionSort metaLe (metasFor L1 c)
          = List.insertionSort metaLe (metasFor L2 c) := by
        apply sorted_perm_eq ?_
          (((List.perm_insertionSort _ _).trans hp).trans
            (List.perm_insertionSort _ _).symm)
          (List.sorted_insertionSort _ _) (List.sorted_insertionSort _ _)
        intro a ha b hb hab hba
        have ha2 : a ∈ metasFor L1 c :=
          (List.perm_insertionSort metaLe _).mem_iff.mp ha
        have hb2 : b ∈ metasFor L1 c :=
          (List.perm_insertionSort metaLe _).mem_iff.mp hb
        obtain ⟨ra, hra, rfl⟩ := List.mem_map.mp ha2
        obtain ⟨rb, hrb, rfl⟩ := List.mem_map.mp hb2
        have hraL : ra ∈ L1 := (List.mem_filter.mp hra).1
        have hrbL : rb ∈ L1 := (List.mem_filter.mp hrb).1
        have hrac : ra.network.cidr = c := by
          simpa using (List.mem_filter.mp hra).2
        have hrbc : rb.network.cidr = c := by
          simpa using (List.mem_filter.mp hrb).2
        obtain ⟨hs, he⟩ := metaLe_keys_eq hab hba
        exact hprov ra hraL rb hrbL (hrac.trans hrbc.symm) (by rw [hs, he])
      simp [h1, h2, hnet12, hmetas]


/-- C4 (amended): aggregation collapses identical CIDR strings into one
entry whose provenance list carries one element per contributing record (a
source contributing the same CIDR repeatedly appears repeatedly);
aggregation is commutative over the order in which the two providers'
records are added, provided records sharing a CIDR string carry equal
parsed networks and their provenance rows differ only when their
(source, endpoint) pairs differ; the entries are sorted by CIDR string,
each entry's provenance is sorted by (source, endpoint), and each CIDR
appears at most once. -/
theorem aggregate_characterisation (A B : List RangeRecord)
    (hnet : ∀ r ∈ A ++ B, ∀ r' ∈ A ++ B, r.network.cidr = r'.network.cidr →
        r.network = r'.network)
    (hprov : ∀ r ∈ A ++ B, ∀ r' ∈ A ++ B, r.network.cidr = r'.network.cidr →
        (r.metadata.source, r.metadata.endpoint)
          = (r'.metadata.source, r'.metadata.endpoint) →
        r.metadata = r'.metadata) :
    aggregate A B = aggregate B A
    ∧ ((aggregate A B).map (fun e => e.network.cidr)).Nodup
    ∧ (aggregate A B).Sorted entryLe
    ∧ (∀ e ∈ aggregate A B, e.metadata.Sorted metaLe)
    ∧ (∀ e ∈ aggregate A B, e.metadata.length
        = ((A ++ B).filter (fun r => r.network.cidr == e.network.cidr)).length) := by
  haveI : IsTotal RangeMetadata metaLe := ⟨metaLe_total⟩
  haveI : IsTrans RangeMetadata metaLe := ⟨metaLe_trans⟩
  haveI : IsTotal RangeEntry entryLe := ⟨entryLe_total⟩
  haveI : IsTrans RangeEntry entryLe := ⟨entryLe_trans⟩
  have hagg1 : aggregate A B
      = List.insertionSort entryLe ((aggAdd [] (A ++ B)).map
          (fun e => { e with metadata := List.insertionSort metaLe e.metadata })) := by
    unfold aggregate aggResult
    rw [← aggAdd_append]
  have hagg2 : aggregate B A
      = List.insertionSort entryLe ((aggAdd [] (B ++ A)).map
          (fun e => { e with metadata := List.insertionSort metaLe e.metadata })) := by
    unfold aggregate aggResult
    rw [← aggAdd_append]
  have hnodS1 : ((aggAdd [] (A ++ B)).map (fun e => e.network.cidr)).Nodup :=
    aggAdd_keys_nodup (A ++ B) [] (by simp)
  have hnodS2 : ((aggAdd [] (B ++ A)).map (fun e => e.network.cidr)).Nodup :=
    aggAdd_keys_nodup (B ++ A) [] (by simp)
  have hkeysM : ∀ L : List RangeRecord,
      (((aggAdd [] L).map
          (fun e => { e with metadata := List.insertionSort metaLe e.metadata })).map
        (fun e => e.network.cidr))
      = (aggAdd [] L).map (fun e => e.network.cidr) := by
    intro L
    rw [List.map_map]
    exact List.map_congr_left (fun e _ => rfl)
  have hnodM1 : (((aggAdd [] (A ++ B)).map
      (fun e => { e with metadata := List.insertionSort metaLe e.metadata })).map
        (fun e => e.network.cidr)).Nodup := by
    rw [hkeysM]; exact hnodS1
  have hnodM2 : (((aggAdd [] (B ++ A)).map
      (fun e => { e with metadata := List.insertionSort metaLe e.metadata })).map
        (fun e => e.network.cidr)).Nodup := by
    rw [hkeysM]; exact hnodS2
  have hperm : (A ++ B).Perm (B ++ A) := List.perm_append_comm
  have hfind : ∀ c,
      ((aggAdd [] (A ++ B)).map
          (fun e => { e with metadata := List.insertionSort metaLe e.metadata })).find?
          (fun e => e.network.cidr == c)
        = ((aggAdd [] (B ++ A)).map
            (fun e => { e with metadata := List.insertionSort metaLe e.metadata })).find?
            (fun e => e.network.cidr == c) := by
    intro c
    rw [aggResult_map_find, aggResult_map_find]
    exact entryFor_sort_eq (A ++ B) (B ++ A) hperm hnet hprov c
  have hMperm := assoc_perm_of_same_find _ _ hnodM1 hnodM2 hfind
  refine ⟨?_, ?_, ?_, ?_, ?_⟩
  · rw [hagg1, hagg2]
    apply sorted_perm_eq ?_
      (((List.perm_insertionSort _ _).trans hMperm).trans
        (List.perm_insertionSort _ _).symm)
      (List.sorted_insertionSort _ _) (List.sorted_insertionSort _ _)
    intro a ha b hb hab hba
    have ha2 := (List.perm_insertionSort entryLe _).mem_iff.mp ha
    have hb2 := (List.perm_insertionSort entryLe _).mem_iff.mp hb
    exact mem_eq_of_nodup_map _ _ hnodM1 a ha2 b hb2 (entryLe_keys_eq hab hba)
  · rw [hagg1]
    exact (((List.perm_insertionSort entryLe _).map
      (fun e => e.network.cidr)).nodup_iff).mpr hnodM1
  · rw [hagg1]
    exact List.sorted_insertionSort _ _
  · intro e he
    rw [hagg1] at he
    have he2 := (List.perm_insertionSort entryLe _).mem_iff.mp he
    obtain ⟨e0, _, rfl⟩ := List.mem_map.mp he2
    exact List.sorted_insertionSort _ _
  · intro e he
    rw [hagg1] at he
    have he2 := (List.perm_insertionSort entryLe _).mem_iff.mp he
    obtain ⟨e0, he0, rfl⟩ := List.mem_map.mp he2
    have hfind0 : (aggAdd [] (A ++ B)).find?
        (fun x => x.network.cidr == e0.network.cidr) = some e0 :=
      find?_eq_self_of_mem _ hnodS1 e0 he0
    have hchar := aggAdd_find e0.network.cidr (A ++ B) []
    simp only [List.find?_nil] at hchar
    rw [hfind0] at hchar
    have hmeta : e0.metadata = metasFor (A ++ B) e0.network.cidr := by
      unfold entryFor at hchar
      rcases hr : (A ++ B).find? (fun r => r.network.cidr == e0.network.cidr) with _ | r0
      · rw [hr] at hchar; simp at hchar
      · rw [hr] at hchar
        simp only [Option.some.injEq] at hchar
        exact congrArg RangeEntry.metadata hchar
    simp only [hmeta, metasFor]
    rw [(List.perm_insertionSort metaLe _).length_eq, List.length_map]

/-- C4 counterexample: one source contributing the identical CIDR record
twice yields a single entry with two provenance rows from a single
contributing source, refuting "one entry per contributing source". -/
theorem aggregate_provenance_cex :
    aggregate [recC4, recC4] []
      = [{ network := { cidr := "1.1.1.0/24" },
           metadata := [recC4.metadata, recC4.metadata] }]
    ∧ ((aggregate [recC4, recC4] []).map
        (fun e => (e.metadata.map (fun m => m.source)).dedup)) = [["cloudflare"]] := by
  exact ⟨by decide, by decide⟩

/-- C4 witness: commutativity applied to two single-record providers of the
same CIDR with distinct sources. -/
theorem aggregate_characterisation_witness :
    aggregate [recC4a] [recC4b] = aggregate [recC4b] [recC4a] :=
  (aggregate_characterisation [recC4a] [recC4b] (by decide) (by decide)).1

end EdgeScout
